import Mathlib

/-!
Verification of `syzygy/relink/relinker.cc` (sawbuck repository).

The file shallowly embeds the relinker's data model and operations:

* `AddressSpace` is the placement of blocks at virtual addresses
  (`BlockGraph::AddressSpace`): a list of `Placement`s kept in ascending
  address order, with block insertion failing on range overlap.
* `AddOmapForBlockRange` / `AddOmapForAllSections` are the two anonymous
  OMAP-generation helpers at the top of the source file.
* `RelinkerBase.Initialize`, `CopyDataDirectory`, `FinalizeImageHeaders`,
  `CopyBlocks`, `CopySection`, `Relinker.Relink`, `UpdateDebugInformation`
  and the two OMAP tables of `WritePDBFile` mirror the member functions of
  the same names.

External collaborators (the image-layout builder, the PE writer, the PDB
rewriter, the block graph's bulk reference retargeting) live outside the
translated source file; where a claim depends on them they are modelled
from the spec's description of their interface, as noted on each
definition.
-/

namespace Relinker

/-- A placement of a block (identified by a numeric id) at a virtual
address range `[start, start + size)` inside one address space. The range
size equals the block's size, as in `AddressSpace::InsertBlock`. -/
structure Placement where
  start : Nat
  size : Nat
  block : Nat
deriving DecidableEq, Repr

/-- An address space: the list of placements, maintained in ascending
address order (the underlying `RangeMap` is an ordered map). -/
abbrev AddressSpace := List Placement

/-- Intersection test of a placement against the half-open range
`[addr, addr + size)`, as used by `RangeMap::FindIntersecting`. -/
def intersectsRange (p : Placement) (addr size : Nat) : Bool :=
  decide (p.start < addr + size) && decide (addr < p.start + p.size)

/-- The address-ordered run of blocks intersecting `[addr, addr + size)`
(`AddressSpace::GetIntersectingBlocks`). On a sorted space, filtering
returns exactly the intersecting run in ascending order. -/
def GetIntersectingBlocks (space : AddressSpace) (addr size : Nat) :
    List Placement :=
  space.filter (fun p => intersectsRange p addr size)

/-- Reverse lookup of the address a block is placed at
(`AddressSpace::GetAddressOf`); `none` when the block is not placed in
this space. -/
def GetAddressOf (space : AddressSpace) (block : Nat) : Option Nat :=
  (space.find? (fun p => p.block == block)).map (fun p => p.start)

/-- Insertion keeping the list sorted by start address. -/
def insertSorted (space : AddressSpace) (p : Placement) : AddressSpace :=
  match space with
  | [] => [p]
  | q :: rest =>
    if p.start ≤ q.start then p :: q :: rest else q :: insertSorted rest p

/-- Insertion of a block of the given size at `addr`
(`AddressSpace::InsertBlock`): fails iff the new range overlaps an
existing placement. -/
def InsertBlock (space : AddressSpace) (addr size block : Nat) :
    Option AddressSpace :=
  if space.any (fun q => intersectsRange q addr size) then none
  else some (insertSorted space ⟨addr, size, block⟩)

/-- Ordering of two placements: the first one's range ends at or before
the second one's range begins. This is the relation consecutive entries
of a well-formed address space satisfy. -/
def placedBefore (a b : Placement) : Prop := a.start + a.size ≤ b.start

instance : IsTrans Placement placedBefore :=
  ⟨fun _ _ _ hab hbc => le_trans (le_trans hab (Nat.le_add_right _ _)) hbc⟩

instance (a b : Placement) : Decidable (placedBefore a b) :=
  inferInstanceAs (Decidable (a.start + a.size ≤ b.start))

/-- Well-formedness invariant maintained by `AddressSpace`: placements
have positive size and are sorted with non-overlapping ranges. -/
def WFSpace (space : AddressSpace) : Prop :=
  (∀ p ∈ space, 0 < p.size) ∧ List.Chain' placedBefore space

instance (space : AddressSpace) : Decidable (WFSpace space) :=
  inferInstanceAs (Decidable ((∀ p ∈ space, 0 < p.size) ∧
    List.Chain' placedBefore space))

/-- An image section header: the fields of `IMAGE_SECTION_HEADER` the
relinker reads (`VirtualAddress`, `Misc.VirtualSize`,
`Characteristics`). -/
structure SectionHdr where
  va : Nat
  size : Nat
  characteristics : Nat
deriving DecidableEq, Repr

/-- The `IMAGE_SCN_CNT_CODE` section characteristic (0x20). -/
def IMAGE_SCN_CNT_CODE : Nat := 0x20

/-- Code-section test used by `Relinker::Relink`'s section loop. -/
def SectionHdr.isCode (s : SectionHdr) : Bool :=
  decide (s.characteristics &&& IMAGE_SCN_CNT_CODE ≠ 0)

/-- One OMAP entry, `{ rva, rvaTo }`. -/
structure OMAP where
  rva : Nat
  rvaTo : Nat
deriving DecidableEq, Repr

/-- The loop of the anonymous helper `AddOmapForBlockRange`: for each
placement of the (already queried, address-ordered) source range, look
the block up in `remapped`; when present, append one entry mapping the
placement's start to the remapped address, otherwise append nothing. -/
def AddOmapForBlockRange (original : List Placement)
    (remapped : AddressSpace) (omap : List OMAP) : List OMAP :=
  match original with
  | [] => omap
  | p :: rest =>
    match GetAddressOf remapped p.block with
    | some to_addr =>
      AddOmapForBlockRange rest remapped (omap ++ [⟨p.start, to_addr⟩])
    | none => AddOmapForBlockRange rest remapped omap

/-- The loop of the anonymous helper `AddOmapForAllSections`: for each
section header, query the blocks intersecting `[VirtualAddress,
VirtualAddress + VirtualSize)` in `fromSpace` and extend the table via
`AddOmapForBlockRange` against `toSpace`. The C++ `(num_sections,
sections)` pointer pair is represented by the list of the `num_sections`
headers actually walked. -/
def AddOmapForAllSections (headers : List SectionHdr)
    (fromSpace toSpace : AddressSpace) (omap : List OMAP) : List OMAP :=
  match headers with
  | [] => omap
  | s :: rest =>
    AddOmapForAllSections rest fromSpace toSpace
      (AddOmapForBlockRange (GetIntersectingBlocks fromSpace s.va s.size)
        toSpace omap)

/-- The entries one queried range contributes: the per-range loop is an
accumulating form of this `filterMap`. -/
def emitRange (original : List Placement) (remapped : AddressSpace) :
    List OMAP :=
  original.filterMap
    (fun p => (GetAddressOf remapped p.block).map
      (fun a => OMAP.mk p.start a))

/-- The entries a whole walk contributes, section by section. -/
def emitSections (headers : List SectionHdr)
    (fromSpace toSpace : AddressSpace) : List OMAP :=
  (headers.map
    (fun s => emitRange (GetIntersectingBlocks fromSpace s.va s.size)
      toSpace)).flatten

/-- Ordering of two section headers: the first section's virtual range
ends at or before the second one's begins. -/
def sectionBefore (s t : SectionHdr) : Prop := s.va + s.size ≤ t.va

instance : IsTrans SectionHdr sectionBefore :=
  ⟨fun _ _ _ hab hbc => le_trans (le_trans hab (Nat.le_add_right _ _)) hbc⟩

instance (s t : SectionHdr) : Decidable (sectionBefore s t) :=
  inferInstanceAs (Decidable (s.va + s.size ≤ t.va))

/-- Sum of the sizes of a list of placements; the cursor of
`RelinkerBase::CopyBlocks` advances by exactly this much over them. -/
def sizeSum (ps : List Placement) : Nat := (ps.map (fun p => p.size)).sum

/-- The loop of `RelinkerBase::CopyBlocks`: walk the (address-ordered)
source placements; insert each block at the cursor, which starts at
`insert_at` and advances by the inserted block's size; return `none` at
the first insertion failure, attempting no further insertion. -/
def CopyBlocks (blocks : List Placement) (insert_at : Nat)
    (dst : AddressSpace) : Option AddressSpace :=
  match blocks with
  | [] => some dst
  | p :: rest =>
    match InsertBlock dst insert_at p.size p.block with
    | none => none
    | some dst' => CopyBlocks rest (insert_at + p.size) dst'

/-- The body of `RelinkerBase::CopySection`: query the blocks
intersecting the section's original range and copy them starting at the
new segment's base address. The builder's `AddSegment` call, which picks
that base address, is external to the source file; its result is the
`segStart` parameter. -/
def CopySection (origSpace : AddressSpace) (sec : SectionHdr)
    (segStart : Nat) (dst : AddressSpace) : Option AddressSpace :=
  CopyBlocks (GetIntersectingBlocks origSpace sec.va sec.size) segStart dst

/-- The fixed size of `IMAGE_NT_HEADERS` (32-bit, 0xF8 bytes). -/
def sizeof_IMAGE_NT_HEADERS : Nat := 248

/-- The size of one `IMAGE_SECTION_HEADER` (40 bytes). -/
def sizeof_IMAGE_SECTION_HEADER : Nat := 40

/-- The view of the original NT-headers block that
`RelinkerBase::Initialize` reads: the block's size and data size, the
`FileHeader.NumberOfSections` field declared in its data, and whether a
reference is attached at the `AddressOfEntryPoint` field's offset
(`Block::GetReference` success there). -/
structure NTHeaderBlock where
  size : Nat
  dataSize : Nat
  numberOfSections : Nat
  hasEntryPointRef : Bool
deriving DecidableEq, Repr

/-- The result of `RelinkerBase::Initialize` given the original
NT-headers block (`none` models a NULL block pointer): validate the
block, then (after propagating header fields, which cannot fail) resolve
the entry-point reference. -/
def Initialize (b : Option NTHeaderBlock) : Bool :=
  match b with
  | none => false
  | some hb =>
    if hb.size < sizeof_IMAGE_NT_HEADERS then false
    else if hb.dataSize ≠ hb.size then false
    else
      if hb.dataSize ≠ sizeof_IMAGE_NT_HEADERS +
          hb.numberOfSections * sizeof_IMAGE_SECTION_HEADER then false
      else hb.hasEntryPointRef

/-- Index of the relocation table in the data directory
(`IMAGE_DIRECTORY_ENTRY_BASERELOC`). -/
def IMAGE_DIRECTORY_ENTRY_BASERELOC : Nat := 5

/-- Number of data-directory entries (`arraysize(data_directory)`). -/
def IMAGE_NUMBEROF_DIRECTORY_ENTRIES : Nat := 16

/-- The loop of `RelinkerBase::CopyDataDirectory` over the listed
indices. `dd` is the original header's data directory (a block id per
populated slot); `dir` is the builder's current data directory. The
builder's `SetDataDirectoryEntry` is external to the source file;
modelled from the spec: `set-data-directory-entry(index, block) → bool`,
as the acceptance predicate `accept` plus the slot update on success. -/
def copyDataDirLoop (accept : Nat → Nat → Bool) (dd : Nat → Option Nat)
    (dir : Nat → Option Nat) :
    List Nat → Option (Nat → Option Nat)
  | [] => some dir
  | i :: rest =>
    match dd i with
    | some b =>
      if i ≠ IMAGE_DIRECTORY_ENTRY_BASERELOC then
        if accept i b then
          copyDataDirLoop accept dd
            (fun j => if j = i then some b else dir j) rest
        else none
      else copyDataDirLoop accept dd dir rest
    | none => copyDataDirLoop accept dd dir rest

/-- The function `RelinkerBase::CopyDataDirectory`: walk all 16 data-directory slots
of the original header. -/
def CopyDataDirectory (accept : Nat → Nat → Bool)
    (dd : Nat → Option Nat) (dir : Nat → Option Nat) :
    Option (Nat → Option Nat) :=
  copyDataDirLoop accept dd dir
    (List.range IMAGE_NUMBEROF_DIRECTORY_ENTRIES)

/-- A typed cross-reference of the block graph: from offset `srcOff` in
block `src` to offset `dstOff` in block `dst`. -/
structure Ref where
  src : Nat
  srcOff : Nat
  dst : Nat
  dstOff : Nat
deriving DecidableEq, Repr

/-- Modelled from the spec: the effect of the block graph's bulk
retarget operation on one reference — a reference pointing at the given
(block, offset) pair is redirected to the new block at offset 0, any
other reference is untouched. -/
def retargetRef (oldBlock off newBlock : Nat) (r : Ref) : Ref :=
  if r.dst = oldBlock ∧ r.dstOff = off then
    { r with dst := newBlock, dstOff := 0 }
  else r

/-- Modelled from the spec: the block graph's bulk retarget operation
(`Block::TransferReferrers`, external to the source file) — "redirect
every reference currently pointing at a given (block, offset) pair to
instead point at a different block at offset 0". -/
def TransferReferrers (refs : List Ref) (oldBlock off newBlock : Nat) :
    List Ref :=
  refs.map (retargetRef oldBlock off newBlock)

/-- The function `RelinkerBase::FinalizeImageHeaders`: create the relocations section
and finalize the headers (both builder calls are external; their
outcomes are the two booleans), then transfer the referrers of the
original DOS-header block and of the original NT-headers block (both at
offset 0) onto the newly built header blocks. `none` models a `false`
return. -/
def FinalizeImageHeaders (createRelocsOk finalizeHeadersOk : Bool)
    (dosOld ntOld dosNew ntNew : Nat) (refs : List Ref) :
    Option (List Ref) :=
  if !createRelocsOk then none
  else if !finalizeHeadersOk then none
  else
    some (TransferReferrers
      (TransferReferrers refs dosOld 0 dosNew) ntOld 0 ntNew)

/-- The step outcomes `Relinker::Relink` observes, with each external or
separately modelled operation abstracted to its result: initialization
(including GUID creation), per-section code reordering and section copy,
debug-info update, data-directory copy, header finalization, image
write and PDB write. -/
structure RelinkSteps where
  initOk : Bool
  sections : List SectionHdr
  reorderOk : SectionHdr → Bool
  copyOk : SectionHdr → Bool
  updateDebugOk : Bool
  copyDataDirOk : Bool
  finalizeOk : Bool
  writeImageOk : Bool
  writePdbOk : Bool

/-- The section loop of `Relinker::Relink`: for a code section invoke
`ReorderCode`, whose failure is only logged; for a non-code section
invoke `CopySection`, whose failure returns `false` at once. -/
def relinkSectionLoop (reorderOk copyOk : SectionHdr → Bool) :
    List SectionHdr → Bool
  | [] => true
  | s :: rest =>
    if s.isCode then
      -- a ReorderCode failure is logged and the loop continues
      let _logged := reorderOk s
      relinkSectionLoop reorderOk copyOk rest
    else if copyOk s then relinkSectionLoop reorderOk copyOk rest
    else false

/-- The function `Relinker::Relink`: initialize; loop over all original sections but
the last; update debug information; copy the data directory; finalize
the image headers (failure only logged); write the image; write the PDB.
The C++ loop bound `original_num_sections() - 1` becomes
`take (length - 1)`. -/
def Relink (r : RelinkSteps) : Bool :=
  if !r.initOk then false
  else if !relinkSectionLoop r.reorderOk r.copyOk
      (r.sections.take (r.sections.length - 1)) then false
  else if !r.updateDebugOk then false
  else if !r.copyDataDirOk then false
  else
    -- a FinalizeImageHeaders failure is logged and execution continues
    let _logged := r.finalizeOk
    if !r.writeImageOk then false
    else if !r.writePdbOk then false
    else true

/-- The fixed size of an `IMAGE_DEBUG_DIRECTORY` record (28 bytes). -/
def sizeof_IMAGE_DEBUG_DIRECTORY : Nat := 28

/-- The `IMAGE_DEBUG_TYPE_CODEVIEW` debug-directory type. -/
def IMAGE_DEBUG_TYPE_CODEVIEW : Nat := 2

/-- Modelled from the spec: the fixed size of the `pe::CvInfoPdb70`
payload header (its definition lives outside the source file; the spec
describes the payload as a 16-byte identifier plus symbol-file path
behind fixed header fields). -/
def sizeof_CvInfoPdb70 : Nat := 28

/-- The nested reference `UpdateDebugInformation` resolves at the
`AddressOfRawData` field: its offset into the referenced block and the
referenced (payload) block's size. -/
structure DebugRef where
  offset : Nat
  referencedSize : Nat
deriving DecidableEq, Repr

/-- The view of the debug-directory block that
`Relinker::UpdateDebugInformation` reads and writes: the block's data
size, the record's `Type` and `TimeDateStamp` fields, and the reference
attached at the `AddressOfRawData` field's offset. -/
structure DebugDirBlock where
  dataSize : Nat
  dirType : Nat
  timeDateStamp : Nat
  ref : Option DebugRef
deriving DecidableEq, Repr

/-- The mutable state `UpdateDebugInformation` touches: the
debug-directory block and the identifying field (GUID) of the payload
block it references. -/
structure DebugState where
  dir : DebugDirBlock
  payloadGuid : Nat
deriving DecidableEq, Repr

/-- The function `Relinker::UpdateDebugInformation`: validate the record's size and
type; duplicate the record with a fresh timestamp `now` and write it
back (`Block::CopyData`, whose allocation result is `copyDirOk`); only
then resolve and validate the nested payload reference; finally
duplicate the payload (`copyInfoOk`) and stash the fresh GUID. Returns
the boolean result and the state after the call. -/
def UpdateDebugInformation (copyDirOk copyInfoOk : Bool)
    (now guid : Nat) (st : DebugState) : Bool × DebugState :=
  if st.dir.dataSize ≠ sizeof_IMAGE_DEBUG_DIRECTORY then (false, st)
  else if st.dir.dirType ≠ IMAGE_DEBUG_TYPE_CODEVIEW then (false, st)
  else if !copyDirOk then (false, st)
  else
    let st1 : DebugState :=
      { st with dir := { st.dir with timeDateStamp := now } }
    match st.dir.ref with
    | none => (false, st1)
    | some r =>
      if r.offset ≠ 0 then (false, st1)
      else if r.referencedSize < sizeof_CvInfoPdb70 then (false, st1)
      else if !copyInfoOk then (false, st1)
      else (true, { st1 with payloadGuid := guid })

/-- The first OMAP table `Relinker::WritePDBFile` builds (`omap_to`):
walk the NEW image's section headers, all but the last
(`NumberOfSections - 1`), querying the NEW address space and remapping
into the ORIGINAL address space. -/
def pdbOmapTo (builderSections : List SectionHdr)
    (builderSpace origSpace : AddressSpace) : List OMAP :=
  AddOmapForAllSections
    (builderSections.take (builderSections.length - 1))
    builderSpace origSpace []

/-- The second OMAP table `Relinker::WritePDBFile` builds (`omap_from`):
walk the ORIGINAL image's section headers, all but the last, querying
the ORIGINAL address space and remapping into the NEW address space. -/
def pdbOmapFrom (origSections : List SectionHdr)
    (origSpace builderSpace : AddressSpace) : List OMAP :=
  AddOmapForAllSections
    (origSections.take (origSections.length - 1))
    origSpace builderSpace []

/-- Follows the spec's words, for comparison with `pdbOmapTo` (the
definition from the source): a "to" table that is an original→new
mapping computed "by walking the NEW image's sections against the
ORIGINAL address space", i.e. querying the ORIGINAL space at the new
sections' ranges and remapping into the NEW space, so each entry maps an
original address to a new address. -/
def pdbOmapToClaimed (builderSections : List SectionHdr)
    (builderSpace origSpace : AddressSpace) : List OMAP :=
  AddOmapForAllSections
    (builderSections.take (builderSections.length - 1))
    origSpace builderSpace []

theorem addOmapForBlockRange_eq (original : List Placement)
    (remapped : AddressSpace) (omap : List OMAP) :
    AddOmapForBlockRange original remapped omap =
      omap ++ emitRange original remapped := by
  induction original generalizing omap with
  | nil => simp [AddOmapForBlockRange, emitRange]
  | cons p rest ih =>
    cases h : GetAddressOf remapped p.block with
    | none => simp [AddOmapForBlockRange, emitRange, h, ih]
    | some a => simp [AddOmapForBlockRange, emitRange, h, ih]

theorem addOmapForAllSections_eq (headers : List SectionHdr)
    (fromSpace toSpace : AddressSpace) (omap : List OMAP) :
    AddOmapForAllSections headers fromSpace toSpace omap =
      omap ++ emitSections headers fromSpace toSpace := by
  induction headers generalizing omap with
  | nil => simp [AddOmapForAllSections, emitSections]
  | cons s rest ih =>
    simp [AddOmapForAllSections, emitSections, ih,
      addOmapForBlockRange_eq, List.flatten]

theorem mem_emitRange {e : OMAP} {original : List Placement}
    {remapped : AddressSpace} :
    e ∈ emitRange original remapped ↔
      ∃ p ∈ original, GetAddressOf remapped p.block = some e.rvaTo ∧
        e.rva = p.start := by
  simp only [emitRange, List.mem_filterMap, Option.map_eq_some']
  constructor
  · rintro ⟨p, hp, a, ha, rfl⟩
    exact ⟨p, hp, ha, rfl⟩
  · rintro ⟨p, hp, ha, he⟩
    exact ⟨p, hp, e.rvaTo, ha, by cases e; simp_all⟩

/-- C6: for every block yielded by the address-ordered range query over
the source space, the per-range translation loop emits exactly one OMAP
entry — the block's source range start mapped to the block's address in
the destination space — when the block is placed in the destination
space, and emits no entry for that block when it is absent: the loop
appends, per queried placement in order, the singleton entry when
`GetAddressOf` succeeds and nothing when it fails. -/
theorem omap_block_range_one_entry_per_placed_block
    (original : List Placement) (remapped : AddressSpace)
    (omap : List OMAP) :
    AddOmapForBlockRange original remapped omap =
      omap ++ (original.map (fun p =>
        match GetAddressOf remapped p.block with
        | some to_addr => [OMAP.mk p.start to_addr]
        | none => [])).flatten := by
  induction original generalizing omap with
  | nil => simp [AddOmapForBlockRange]
  | cons p rest ih =>
    cases h : GetAddressOf remapped p.block with
    | none => simp [AddOmapForBlockRange, h, ih]
    | some a => simp [AddOmapForBlockRange, h, ih]

/-- C7: `RelinkerBase::Initialize` returns failure for every header
block that is absent (NULL) or whose size differs from the fixed
NT-header size plus the declared section count times the section-header
size. -/
theorem initialize_rejects_bad_header_size (b : Option NTHeaderBlock)
    (h : b = none ∨ ∀ hb, b = some hb →
      hb.size ≠ sizeof_IMAGE_NT_HEADERS +
        hb.numberOfSections * sizeof_IMAGE_SECTION_HEADER) :
    Initialize b = false := by
  cases b with
  | none => rfl
  | some hb =>
    have hsz := h.resolve_left (by simp) hb rfl
    simp only [Initialize]
    split_ifs with h1 h2 h3
    · rfl
    · rfl
    · rfl
    · exact (hsz (by omega)).elim

/-- Witness for C7: a present header block declaring 0 sections but
sized 100 bytes is rejected. -/
theorem initialize_rejects_bad_header_size_witness :
    Initialize (some ⟨100, 100, 0, true⟩) = false :=
  initialize_rejects_bad_header_size _
    (Or.inr (fun hb heq => by cases heq; decide))

theorem mem_insertSorted {space : AddressSpace} {p q : Placement} :
    q ∈ insertSorted space p ↔ q = p ∨ q ∈ space := by
  induction space with
  | nil => simp [insertSorted]
  | cons r rest ih =>
    simp only [insertSorted]
    split_ifs with h
    · simp
    · simp only [List.mem_cons, ih]
      tauto

theorem insertBlock_some {space : AddressSpace} {addr size block : Nat}
    {dst' : AddressSpace}
    (h : InsertBlock space addr size block = some dst') :
    Placement.mk addr size block ∈ dst' ∧ ∀ q ∈ space, q ∈ dst' := by
  unfold InsertBlock at h
  split_ifs at h
  cases h
  constructor
  · exact mem_insertSorted.mpr (Or.inl rfl)
  · exact fun q hq => mem_insertSorted.mpr (Or.inr hq)

theorem copyBlocks_mono {ps : List Placement} :
    ∀ {start : Nat} {dst dst' : AddressSpace},
      CopyBlocks ps start dst = some dst' → ∀ q ∈ dst, q ∈ dst' := by
  induction ps with
  | nil =>
    intro start dst dst' h q hq
    cases h
    exact hq
  | cons p rest ih =>
    intro start dst dst' h q hq
    unfold CopyBlocks at h
    cases hins : InsertBlock dst start p.size p.block with
    | none => rw [hins] at h; cases h
    | some dst1 =>
      rw [hins] at h
      exact ih h q ((insertBlock_some hins).2 q hq)

theorem copyBlocks_place {ps : List Placement} :
    ∀ {start : Nat} {dst dst' : AddressSpace},
      CopyBlocks ps start dst = some dst' →
      ∀ i (hi : i < ps.length),
        Placement.mk (start + sizeSum (ps.take i)) (ps.get ⟨i, hi⟩).size
          (ps.get ⟨i, hi⟩).block ∈ dst' := by
  induction ps with
  | nil => intro _ _ _ _ i hi; cases hi
  | cons p rest ih =>
    intro start dst dst' h i hi
    unfold CopyBlocks at h
    cases hins : InsertBlock dst start p.size p.block with
    | none => rw [hins] at h; cases h
    | some dst1 =>
      rw [hins] at h
      cases i with
      | zero =>
        simpa [sizeSum] using
          copyBlocks_mono h _ (insertBlock_some hins).1
      | succ i =>
        have := ih h i (Nat.lt_of_succ_lt_succ hi)
        simpa [sizeSum, Nat.add_assoc] using this

theorem copyBlocks_failfast {ps : List Placement} :
    ∀ {start : Nat} {dst : AddressSpace} i (hi : i < ps.length)
      (mid : AddressSpace),
      CopyBlocks (ps.take i) start dst = some mid →
      InsertBlock mid (start + sizeSum (ps.take i))
        (ps.get ⟨i, hi⟩).size (ps.get ⟨i, hi⟩).block = none →
      CopyBlocks ps start dst = none := by
  induction ps with
  | nil => intro _ _ i hi; cases hi
  | cons p rest ih =>
    intro start dst i hi mid hpre hcol
    cases i with
    | zero =>
      simp only [List.take_zero, CopyBlocks] at hpre
      cases hpre
      simp only [List.take_zero, sizeSum, List.map_nil, List.sum_nil,
        Nat.add_zero, List.get] at hcol
      unfold CopyBlocks
      rw [hcol]
    | succ i =>
      simp only [List.take_succ_cons, CopyBlocks] at hpre
      cases hins : InsertBlock dst start p.size p.block with
      | none => rw [hins] at hpre; cases hpre
      | some dst1 =>
        rw [hins] at hpre
        have hcol' : InsertBlock mid
            ((start + p.size) + sizeSum (rest.take i))
            (rest.get ⟨i, Nat.lt_of_succ_lt_succ hi⟩).size
            (rest.get ⟨i, Nat.lt_of_succ_lt_succ hi⟩).block = none := by
          simpa [sizeSum, Nat.add_assoc] using hcol
        have := ih i (Nat.lt_of_succ_lt_succ hi) mid hpre hcol'
        unfold CopyBlocks
        rw [hins]
        exact this

/-- C3: `RelinkerBase::CopyBlocks` places the queried blocks contiguously
and in source order — block `i` lands at the start address plus the sum
of the sizes of blocks `0..i-1`, so each block sits at the previous
block's destination plus exactly the previous block's size and gaps in
the source layout are not reproduced; when the insertion of block `i`
collides after the first `i` blocks went in, the whole call returns
failure, and a failed `CopyBlocks` is exactly a failed `CopySection`. -/
theorem copyBlocks_contiguous_failfast (ps : List Placement)
    (start : Nat) (dst : AddressSpace) :
    (∀ dst', CopyBlocks ps start dst = some dst' →
      ∀ i (hi : i < ps.length),
        Placement.mk (start + sizeSum (ps.take i)) (ps.get ⟨i, hi⟩).size
          (ps.get ⟨i, hi⟩).block ∈ dst')
    ∧ (∀ i (hi : i < ps.length) (mid : AddressSpace),
        CopyBlocks (ps.take i) start dst = some mid →
        InsertBlock mid (start + sizeSum (ps.take i))
          (ps.get ⟨i, hi⟩).size (ps.get ⟨i, hi⟩).block = none →
        CopyBlocks ps start dst = none)
    ∧ (∀ (origSpace : AddressSpace) (sec : SectionHdr),
        CopySection origSpace sec start dst = none ↔
          CopyBlocks (GetIntersectingBlocks origSpace sec.va sec.size)
            start dst = none) := by
  refine ⟨fun dst' h i hi => copyBlocks_place h i hi,
    fun i hi mid hpre hcol => copyBlocks_failfast i hi mid hpre hcol,
    fun origSpace sec => Iff.rfl⟩

/-- Witness for C3: source blocks at `[0,10)` and `[20,30)` copied to
start address 100 land at `[100,110)` and `[110,120)` — the gap is not
reproduced. -/
theorem copyBlocks_contiguous_failfast_witness :
    Placement.mk 110 10 2 ∈
      ([⟨100, 10, 1⟩, ⟨110, 10, 2⟩] : AddressSpace) := by
  have h := (copyBlocks_contiguous_failfast
      [⟨0, 10, 1⟩, ⟨20, 10, 2⟩] 100 []).1
    [⟨100, 10, 1⟩, ⟨110, 10, 2⟩] (by rfl) 1 (by decide)
  exact h

theorem copyDataDirLoop_some {accept : Nat → Nat → Bool}
    {dd : Nat → Option Nat} :
    ∀ {l : List Nat}, l.Nodup →
      ∀ {dir d' : Nat → Option Nat},
      copyDataDirLoop accept dd dir l = some d' →
      ∀ j, d' j =
        if j ∈ l ∧ j ≠ IMAGE_DIRECTORY_ENTRY_BASERELOC ∧ (dd j).isSome
        then dd j else dir j := by
  intro l
  induction l with
  | nil =>
    intro _ dir d' h j
    cases h
    simp
  | cons i rest ih =>
    intro hnd dir d' h j
    have hi : i ∉ rest := (List.nodup_cons.mp hnd).1
    have hnd' := (List.nodup_cons.mp hnd).2
    cases hdd : dd i with
    | none =>
      simp only [copyDataDirLoop, hdd] at h
      have hd := ih hnd' h j
      by_cases hji : j = i
      · subst hji
        simp [hd, hdd, hi]
      · by_cases hjr : j ∈ rest <;> simp [hd, hji, hjr]
    | some b =>
      simp only [copyDataDirLoop, hdd] at h
      by_cases h5 : i = IMAGE_DIRECTORY_ENTRY_BASERELOC
      · rw [if_neg (not_not_intro h5)] at h
        have hd := ih hnd' h j
        by_cases hji : j = i
        · subst hji
          subst h5
          simp [hd, hi]
        · by_cases hjr : j ∈ rest <;> simp [hd, hji, hjr]
      · rw [if_pos h5] at h
        cases hacc : accept i b with
        | false =>
          rw [hacc] at h
          exact absurd h (by simp)
        | true =>
          rw [hacc, if_pos rfl] at h
          have hd := ih hnd' h j
          by_cases hji : j = i
          · subst hji
            simp [hd, hi, hdd, h5]
          · by_cases hjr : j ∈ rest <;> simp [hd, hji, hjr]

theorem copyDataDirLoop_reject {accept : Nat → Nat → Bool}
    {dd : Nat → Option Nat} :
    ∀ {l : List Nat} {dir : Nat → Option Nat} (i b : Nat),
      i ∈ l → i ≠ IMAGE_DIRECTORY_ENTRY_BASERELOC → dd i = some b →
      accept i b = false →
      copyDataDirLoop accept dd dir l = none := by
  intro l
  induction l with
  | nil => intro _ i b hmem; cases hmem
  | cons k rest ih =>
    intro dir i b hmem h5 hdd hacc
    cases hk : dd k with
    | none =>
      have hki : k ≠ i := fun he => by rw [he, hdd] at hk; cases hk
      have hir : i ∈ rest := by
        cases List.mem_cons.mp hmem with
        | inl he => exact absurd he.symm hki
        | inr hr => exact hr
      simp only [copyDataDirLoop, hk]
      exact ih i b hir h5 hdd hacc
    | some b' =>
      simp only [copyDataDirLoop, hk]
      by_cases hk5 : k = IMAGE_DIRECTORY_ENTRY_BASERELOC
      · rw [if_neg (not_not_intro hk5)]
        have hki : k ≠ i := fun he => (h5 (he ▸ hk5)).elim
        have hir : i ∈ rest := by
          cases List.mem_cons.mp hmem with
          | inl he => exact absurd he.symm hki
          | inr hr => exact hr
        exact ih i b hir h5 hdd hacc
      · rw [if_pos hk5]
        cases hacck : accept k b' with
        | false => simp
        | true =>
          by_cases hki : k = i
          · subst hki
            rw [hdd] at hk
            cases hk
            rw [hacc] at hacck
            cases hacck
          · have hir : i ∈ rest := by
              cases List.mem_cons.mp hmem with
              | inl he => exact absurd he.symm hki
              | inr hr => exact hr
            simp only [if_pos rfl]
            exact ih i b hir h5 hdd hacc

theorem copyDataDirLoop_reloc_insensitive {accept : Nat → Nat → Bool}
    {dd dd₂ : Nat → Option Nat}
    (hag : ∀ j, j ≠ IMAGE_DIRECTORY_ENTRY_BASERELOC → dd₂ j = dd j) :
    ∀ (l : List Nat) (dir : Nat → Option Nat),
      copyDataDirLoop accept dd₂ dir l =
        copyDataDirLoop accept dd dir l := by
  intro l
  induction l with
  | nil => intro dir; rfl
  | cons i rest ih =>
    intro dir
    by_cases h5 : i = IMAGE_DIRECTORY_ENTRY_BASERELOC
    · subst h5
      cases hdd : dd IMAGE_DIRECTORY_ENTRY_BASERELOC <;>
        cases hdd2 : dd₂ IMAGE_DIRECTORY_ENTRY_BASERELOC <;>
          simp [copyDataDirLoop, hdd, hdd2, ih]
    · cases hdd : dd i with
      | none =>
        simp only [copyDataDirLoop, hdd, hag i h5]
        exact ih dir
      | some b =>
        simp only [copyDataDirLoop, hdd, hag i h5]
        rw [if_pos h5, if_pos h5]
        cases accept i b with
        | false => rfl
        | true => exact ih _

/-- C8: `RelinkerBase::CopyDataDirectory` copies every populated
data-directory entry except the relocation-table slot (index 5) into the
entry at the same index of the new header; the relocation slot's
original block is never copied — the result does not even depend on it;
and the call returns failure as soon as the builder rejects an entry
assignment (the builder's `set-data-directory-entry(index, block) →
bool` is the `accept` oracle, modelled from the spec). -/
theorem copyDataDirectory_spec (accept : Nat → Nat → Bool)
    (dd dir : Nat → Option Nat) :
    (∀ d', CopyDataDirectory accept dd dir = some d' →
      ∀ j, d' j =
        if j < IMAGE_NUMBEROF_DIRECTORY_ENTRIES ∧
            j ≠ IMAGE_DIRECTORY_ENTRY_BASERELOC ∧ (dd j).isSome
        then dd j else dir j)
    ∧ (∀ i b, i < IMAGE_NUMBEROF_DIRECTORY_ENTRIES →
        i ≠ IMAGE_DIRECTORY_ENTRY_BASERELOC → dd i = some b →
        accept i b = false → CopyDataDirectory accept dd dir = none)
    ∧ (∀ dd₂ : Nat → Option Nat,
        (∀ j, j ≠ IMAGE_DIRECTORY_ENTRY_BASERELOC → dd₂ j = dd j) →
        CopyDataDirectory accept dd₂ dir =
          CopyDataDirectory accept dd dir) := by
  refine ⟨fun d' h j => ?_, fun i b hilt h5 hdd hacc => ?_,
    fun dd₂ hag => ?_⟩
  · have h' : copyDataDirLoop accept dd dir
        (List.range IMAGE_NUMBEROF_DIRECTORY_ENTRIES) = some d' := h
    have := copyDataDirLoop_some (List.nodup_range _) h' j
    simpa [List.mem_range] using this
  · exact copyDataDirLoop_reject i b (List.mem_range.mpr hilt) h5 hdd
      hacc
  · exact copyDataDirLoop_reloc_insensitive hag _ dir

/-- Witness for C8: a populated entry at index 0 whose assignment the
builder rejects makes the whole copy fail. -/
theorem copyDataDirectory_spec_witness :
    CopyDataDirectory (fun _ _ => false)
      (fun j => if j = 0 then some 7 else none) (fun _ => none) =
      none :=
  (copyDataDirectory_spec _ _ _).2.1 0 7 (by decide) (by decide) rfl
    rfl

/-- C2: after `RelinkerBase::FinalizeImageHeaders` succeeds, no reference
in the block graph still targets the original DOS-header or NT-header
block at offset 0, and every reference that did points instead at the
corresponding newly built header block at offset 0 (positionally, all
other references are untouched by construction). The distinctness
hypotheses say the two original header blocks are distinct and the two
newly built replacement blocks are fresh. -/
theorem finalizeImageHeaders_retargets_header_refs
    (createRelocsOk finalizeHeadersOk : Bool)
    (dosOld ntOld dosNew ntNew : Nat) (refs refs' : List Ref)
    (hdo : dosOld ≠ ntOld) (hdn : dosNew ≠ dosOld)
    (hdn2 : dosNew ≠ ntOld) (hnn : ntNew ≠ dosOld)
    (hnn2 : ntNew ≠ ntOld)
    (hfin : FinalizeImageHeaders createRelocsOk finalizeHeadersOk
      dosOld ntOld dosNew ntNew refs = some refs') :
    refs'.length = refs.length
    ∧ (∀ r ∈ refs',
        ¬(r.dst = dosOld ∧ r.dstOff = 0) ∧
        ¬(r.dst = ntOld ∧ r.dstOff = 0))
    ∧ (∀ i (hi : i < refs.length) (hi' : i < refs'.length),
        ((refs.get ⟨i, hi⟩).dst = dosOld ∧
            (refs.get ⟨i, hi⟩).dstOff = 0 →
          refs'.get ⟨i, hi'⟩ =
            { refs.get ⟨i, hi⟩ with dst := dosNew, dstOff := 0 })
        ∧ ((refs.get ⟨i, hi⟩).dst = ntOld ∧
            (refs.get ⟨i, hi⟩).dstOff = 0 →
          refs'.get ⟨i, hi'⟩ =
            { refs.get ⟨i, hi⟩ with dst := ntNew, dstOff := 0 })) := by
  cases createRelocsOk with
  | false => exact absurd hfin (by simp [FinalizeImageHeaders])
  | true =>
  cases finalizeHeadersOk with
  | false => exact absurd hfin (by simp [FinalizeImageHeaders])
  | true =>
  simp only [FinalizeImageHeaders, Bool.not_true, Bool.false_eq_true,
    if_false, Option.some.injEq] at hfin
  subst hfin
  refine ⟨by simp [TransferReferrers], fun r' hr' => ?_,
    fun i hi hi' => ?_⟩
  · simp only [TransferReferrers, List.mem_map] at hr'
    obtain ⟨r1, hr1, rfl⟩ := hr'
    obtain ⟨r0, _hr0, rfl⟩ := hr1
    simp only [retargetRef]
    split_ifs with c1 c2 c2 <;> simp_all
  · simp only [TransferReferrers, List.get_eq_getElem,
      List.getElem_map]
    constructor
    · rintro ⟨h1, h2⟩
      simp [retargetRef, h1, h2, hdn2]
    · rintro ⟨h1, h2⟩
      simp [retargetRef, h1, h2, hdo.symm]

/-- Witness for C2: a reference into the old DOS header block (id 1) at
offset 0 ends up, after a successful finalization that builds blocks 3
and 4, on the new DOS header block (id 3) at offset 0. -/
theorem finalizeImageHeaders_retargets_header_refs_witness :
    (TransferReferrers
        (TransferReferrers [Ref.mk 10 4 1 0, Ref.mk 11 8 2 0] 1 0 3)
        2 0 4).get ⟨0, by decide⟩ = Ref.mk 10 4 3 0 := by
  have h := (finalizeImageHeaders_retargets_header_refs true true
    1 2 3 4 [Ref.mk 10 4 1 0, Ref.mk 11 8 2 0] _ (by decide)
    (by decide) (by decide) (by decide) (by decide) rfl).2.2 0
    (by decide) (by decide)
  exact h.1 (by decide)

/-- C9: `Relinker::UpdateDebugInformation` is not atomic on error — once
the size and type checks pass and the record duplicate is written back,
a subsequently detected bad payload reference (missing, at a non-zero
offset, or referencing a too-small payload) makes the call fail with the
debug-directory record already carrying the fresh timestamp. -/
theorem updateDebugInformation_mutates_before_failing
    (copyInfoOk : Bool) (now guid : Nat) (st : DebugState)
    (hsz : st.dir.dataSize = sizeof_IMAGE_DEBUG_DIRECTORY)
    (hty : st.dir.dirType = IMAGE_DEBUG_TYPE_CODEVIEW)
    (hbad : st.dir.ref = none ∨ ∃ r, st.dir.ref = some r ∧
      (r.offset ≠ 0 ∨ r.referencedSize < sizeof_CvInfoPdb70))
    (hfresh : st.dir.timeDateStamp ≠ now) :
    (UpdateDebugInformation true copyInfoOk now guid st).1 = false
    ∧ (UpdateDebugInformation true copyInfoOk now guid
        st).2.dir.timeDateStamp = now
    ∧ (UpdateDebugInformation true copyInfoOk now guid st).2.dir ≠
        st.dir := by
  have hev : UpdateDebugInformation true copyInfoOk now guid st =
      (false,
        { st with dir := { st.dir with timeDateStamp := now } }) := by
    rcases hbad with hnone | ⟨r, hr, hb⟩
    · simp [UpdateDebugInformation, hsz, hty, hnone]
    · by_cases hoff : r.offset = 0
      · have hsmall : r.referencedSize < sizeof_CvInfoPdb70 := by
          rcases hb with h | h
          · exact absurd hoff h
          · exact h
        simp [UpdateDebugInformation, hsz, hty, hr, hoff, hsmall]
      · simp [UpdateDebugInformation, hsz, hty, hr, hoff]
  rw [hev]
  exact ⟨rfl, rfl, fun he =>
    hfresh (congrArg DebugDirBlock.timeDateStamp he).symm⟩

/-- Witness for C9: a well-typed, well-sized debug directory whose
payload reference sits at offset 4 — the call fails, yet the record's
timestamp has been rewritten to the fresh value 9. -/
theorem updateDebugInformation_mutates_before_failing_witness :
    (UpdateDebugInformation true true 9 1
      ⟨⟨28, 2, 5, some ⟨4, 100⟩⟩, 0⟩).1 = false
    ∧ (UpdateDebugInformation true true 9 1
        ⟨⟨28, 2, 5, some ⟨4, 100⟩⟩, 0⟩).2.dir.timeDateStamp = 9
    ∧ (UpdateDebugInformation true true 9 1
        ⟨⟨28, 2, 5, some ⟨4, 100⟩⟩, 0⟩).2.dir ≠
        (⟨⟨28, 2, 5, some ⟨4, 100⟩⟩, 0⟩ : DebugState).dir :=
  updateDebugInformation_mutates_before_failing true 9 1 _ (by decide)
    (by decide)
    (Or.inr ⟨⟨4, 100⟩, rfl, Or.inl (by decide)⟩) (by decide)

theorem relinkSectionLoop_eq_true (reorderOk copyOk : SectionHdr → Bool) :
    ∀ l : List SectionHdr,
      relinkSectionLoop reorderOk copyOk l = true ↔
        ∀ s ∈ l, s.isCode = false → copyOk s = true := by
  intro l
  induction l with
  | nil => simp [relinkSectionLoop]
  | cons s rest ih =>
    cases hc : s.isCode with
    | true => simp [relinkSectionLoop, hc, ih]
    | false =>
      cases hcp : copyOk s with
      | true => simp [relinkSectionLoop, hc, hcp, ih]
      | false =>
        simp only [relinkSectionLoop, hc, hcp]
        simp only [Bool.false_eq_true, if_false]
        constructor
        · intro h
          cases h
        · intro h
          have := h s (List.mem_cons_self s rest) hc
          rw [hcp] at this
          cases this

theorem relinkSectionLoop_reorder_irrelevant
    (reorderOk₁ reorderOk₂ copyOk : SectionHdr → Bool) :
    ∀ l : List SectionHdr,
      relinkSectionLoop reorderOk₁ copyOk l =
        relinkSectionLoop reorderOk₂ copyOk l := by
  intro l
  induction l with
  | nil => rfl
  | cons s rest ih =>
    cases hc : s.isCode <;> simp [relinkSectionLoop, hc, ih]

/-- C1: `Relinker::Relink` returns success exactly when initialization
succeeds, every non-code section among all but the last copies
successfully, the debug-info update succeeds, the data-directory copy
succeeds, the image write succeeds and the PDB write succeeds — so any
of the claim's listed failures (initialization, a non-code section copy,
the image write, the debug-file write) forces run failure, while the
result is entirely independent of the code-reordering outcomes and of
the header-finalization outcome, which are only logged. -/
theorem relink_success_gating (r : RelinkSteps) :
    (Relink r = true ↔
      (r.initOk = true
        ∧ (∀ s ∈ r.sections.take (r.sections.length - 1),
            s.isCode = false → r.copyOk s = true)
        ∧ r.updateDebugOk = true ∧ r.copyDataDirOk = true
        ∧ r.writeImageOk = true ∧ r.writePdbOk = true))
    ∧ ∀ (reorderOk₂ : SectionHdr → Bool) (finalizeOk₂ : Bool),
        Relink { r with reorderOk := reorderOk₂,
                        finalizeOk := finalizeOk₂ } = Relink r := by
  constructor
  · rw [← relinkSectionLoop_eq_true r.reorderOk r.copyOk
      (r.sections.take (r.sections.length - 1))]
    unfold Relink
    cases r.initOk <;>
      cases relinkSectionLoop r.reorderOk r.copyOk
        (r.sections.take (r.sections.length - 1)) <;>
      cases r.updateDebugOk <;> cases r.copyDataDirOk <;>
      cases r.writeImageOk <;> cases r.writePdbOk <;> simp
  · intro reorderOk₂ finalizeOk₂
    simp only [Relink]
    rw [relinkSectionLoop_reorder_irrelevant reorderOk₂ r.reorderOk]

theorem query_start_le {space : AddressSpace} (hWF : WFSpace space)
    {s t : SectionHdr} (hst : sectionBefore s t) {p q : Placement}
    (hp : p ∈ GetIntersectingBlocks space s.va s.size)
    (hq : q ∈ GetIntersectingBlocks space t.va t.size) :
    p.start ≤ q.start := by
  have hpw := List.chain'_iff_pairwise.mp hWF.2
  rw [GetIntersectingBlocks, List.mem_filter] at hp hq
  obtain ⟨hpmem, hpint⟩ := hp
  obtain ⟨hqmem, hqint⟩ := hq
  simp only [intersectsRange, Bool.and_eq_true, decide_eq_true_eq]
    at hpint hqint
  obtain ⟨ip, hip, hpe⟩ := List.mem_iff_getElem.mp hpmem
  obtain ⟨iq, hiq, hqe⟩ := List.mem_iff_getElem.mp hqmem
  rcases Nat.lt_trichotomy ip iq with hlt | heq | hgt
  · have hrel := List.pairwise_iff_getElem.mp hpw ip iq hip hiq hlt
    rw [hpe, hqe] at hrel
    unfold placedBefore at hrel
    omega
  · subst heq
    have hpq : p = q := hpe.symm.trans hqe
    exact le_of_eq (congrArg Placement.start hpq)
  · have hrel := List.pairwise_iff_getElem.mp hpw iq ip hiq hip hgt
    rw [hpe, hqe] at hrel
    unfold placedBefore at hrel
    unfold sectionBefore at hst
    omega

theorem query_starts_pairwise {space : AddressSpace}
    (hWF : WFSpace space) (va size : Nat) :
    List.Pairwise (· ≤ ·)
      ((GetIntersectingBlocks space va size).map Placement.start) := by
  have hpw := List.chain'_iff_pairwise.mp hWF.2
  rw [List.pairwise_map]
  unfold GetIntersectingBlocks
  exact List.Pairwise.imp
    (fun hab => by unfold placedBefore at hab; omega)
    (List.Pairwise.sublist (List.filter_sublist space) hpw)

theorem emitRange_rvas_sublist (original : List Placement)
    (remapped : AddressSpace) :
    List.Sublist ((emitRange original remapped).map OMAP.rva)
      (original.map Placement.start) := by
  induction original with
  | nil => simp [emitRange]
  | cons p rest ih =>
    cases h : GetAddressOf remapped p.block with
    | none =>
      simp only [emitRange, List.filterMap_cons, h, Option.map_none',
        List.map_cons]
      exact List.Sublist.cons _ ih
    | some a =>
      simp only [emitRange, List.filterMap_cons, h, Option.map_some',
        List.map_cons]
      exact List.Sublist.cons₂ _ ih

theorem rva_mem_emitRange {x : Nat} {original : List Placement}
    {remapped : AddressSpace}
    (hx : x ∈ (emitRange original remapped).map OMAP.rva) :
    ∃ p ∈ original, x = p.start := by
  obtain ⟨e, he, rfl⟩ := List.mem_map.mp hx
  obtain ⟨p, hp, _, he2⟩ := mem_emitRange.mp he
  exact ⟨p, hp, he2⟩

/-- C5 (amended): for section headers in ascending address order with
each section's range ending at or before the next one begins, and any
pair of (well-formed) source/destination address spaces, the OMAP table
produced by `AddOmapForAllSections` is non-decreasing in source address
across all its entries. -/
theorem omap_table_nondecreasing (headers : List SectionHdr)
    (fromSpace toSpace : AddressSpace) (hWF : WFSpace fromSpace)
    (hsec : List.Chain' sectionBefore headers) :
    List.Pairwise (· ≤ ·)
      ((AddOmapForAllSections headers fromSpace toSpace []).map
        OMAP.rva) := by
  rw [addOmapForAllSections_eq, List.nil_append]
  unfold emitSections
  rw [List.map_flatten, List.pairwise_flatten]
  constructor
  · intro l' hl'
    rw [List.map_map] at hl'
    obtain ⟨s, _hs, rfl⟩ := List.mem_map.mp hl'
    exact List.Pairwise.sublist (emitRange_rvas_sublist _ _)
      (query_starts_pairwise hWF s.va s.size)
  · rw [List.map_map, List.pairwise_map]
    have hpw := List.chain'_iff_pairwise.mp hsec
    refine hpw.imp ?_
    intro s t hst x hx y hy
    obtain ⟨p, hp, hxe⟩ := rva_mem_emitRange hx
    obtain ⟨q, hq, hye⟩ := rva_mem_emitRange hy
    subst hxe
    subst hye
    exact query_start_le hWF hst hp hq

/-- Counterexample to C5 as stated: over a well-formed source space,
walking two sections in descending address order produces the table
`[(100, 100), (0, 0)]`, which is decreasing in source address — the
claim's quantification over every sequence of section headers fails. -/
theorem omap_table_nondecreasing_counterexample :
    ¬ List.Pairwise (· ≤ ·)
      ((AddOmapForAllSections
          [SectionHdr.mk 100 10 0, SectionHdr.mk 0 10 0]
          [Placement.mk 0 10 1, Placement.mk 100 10 2]
          [Placement.mk 0 10 1, Placement.mk 100 10 2]
          []).map OMAP.rva) := by decide

/-- Witness for C5 (amended): address-ordered sections over a
well-formed space yield a non-decreasing table. -/
theorem omap_table_nondecreasing_witness :
    List.Pairwise (· ≤ ·)
      ((AddOmapForAllSections
          [SectionHdr.mk 0 10 0, SectionHdr.mk 100 10 0]
          [Placement.mk 0 10 1, Placement.mk 100 10 2]
          [Placement.mk 50 10 2, Placement.mk 80 10 1]
          []).map OMAP.rva) :=
  omap_table_nondecreasing _ _ _
    ⟨by decide, List.Chain.cons (by decide) List.Chain.nil⟩
    (List.Chain.cons (by decide) List.Chain.nil)

theorem mem_emitSections {e : OMAP} {headers : List SectionHdr}
    {fromSpace toSpace : AddressSpace} :
    e ∈ emitSections headers fromSpace toSpace ↔
      ∃ s ∈ headers, ∃ p,
        p ∈ GetIntersectingBlocks fromSpace s.va s.size ∧
        GetAddressOf toSpace p.block = some e.rvaTo ∧
        e.rva = p.start := by
  simp only [emitSections, List.mem_flatten, List.mem_map]
  constructor
  · rintro ⟨l, ⟨s, hs, rfl⟩, hel⟩
    obtain ⟨p, hp, h1, h2⟩ := mem_emitRange.mp hel
    exact ⟨s, hs, p, hp, h1, h2⟩
  · rintro ⟨s, hs, p, hp, h1, h2⟩
    exact ⟨emitRange (GetIntersectingBlocks fromSpace s.va s.size)
      toSpace, ⟨s, hs, rfl⟩, mem_emitRange.mpr ⟨p, hp, h1, h2⟩⟩

theorem wf_start_inj {space : AddressSpace} (hWF : WFSpace space)
    {p q : Placement} (hp : p ∈ space) (hq : q ∈ space)
    (h : p.start = q.start) : p = q := by
  have hpw := List.chain'_iff_pairwise.mp hWF.2
  obtain ⟨ip, hip, hpe⟩ := List.mem_iff_getElem.mp hp
  obtain ⟨iq, hiq, hqe⟩ := List.mem_iff_getElem.mp hq
  rcases Nat.lt_trichotomy ip iq with hlt | heq | hgt
  · have hrel := List.pairwise_iff_getElem.mp hpw ip iq hip hiq hlt
    rw [hpe, hqe] at hrel
    have hps := hWF.1 p hp
    unfold placedBefore at hrel
    exfalso
    omega
  · subst heq
    exact hpe.symm.trans hqe
  · have hrel := List.pairwise_iff_getElem.mp hpw iq ip hiq hip hgt
    rw [hpe, hqe] at hrel
    have hqs := hWF.1 q hq
    unfold placedBefore at hrel
    exfalso
    omega

/-- C4 (amended): `Relinker::WritePDBFile` computes the `omap_to` table
by walking the NEW image's sections over the NEW address space and
remapping each block into the ORIGINAL space — every entry maps a new
address to an original address — and the `omap_from` table by walking
the ORIGINAL image's sections over the ORIGINAL space and remapping into
the NEW space — every entry maps an original address to a new address;
the two constructions are direction-asymmetric and not guaranteed to be
exact inverses, as the final concrete instance shows: a block covered by
a walked original section but by no walked new section appears in
`omap_from` with no inverse entry in `omap_to`. -/
theorem pdbOmap_direction_characterization
    (bSections oSections : List SectionHdr)
    (bSpace oSpace : AddressSpace) :
    (∀ e ∈ pdbOmapTo bSections bSpace oSpace,
      ∃ p ∈ bSpace, e.rva = p.start ∧
        GetAddressOf oSpace p.block = some e.rvaTo)
    ∧ (∀ e ∈ pdbOmapFrom oSections oSpace bSpace,
      ∃ p ∈ oSpace, e.rva = p.start ∧
        GetAddressOf bSpace p.block = some e.rvaTo)
    ∧ pdbOmapFrom [SectionHdr.mk 0 10 0, SectionHdr.mk 990 8 0]
        [Placement.mk 0 10 1] [Placement.mk 50 10 1] =
        [OMAP.mk 0 50]
    ∧ pdbOmapTo [SectionHdr.mk 100 10 0, SectionHdr.mk 990 8 0]
        [Placement.mk 50 10 1] [Placement.mk 0 10 1] = [] := by
  refine ⟨fun e he => ?_, fun e he => ?_, by decide, by decide⟩
  · rw [pdbOmapTo, addOmapForAllSections_eq, List.nil_append] at he
    obtain ⟨s, _hs, p, hp, h1, h2⟩ := mem_emitSections.mp he
    exact ⟨p, (List.mem_filter.mp hp).1, h2, h1⟩
  · rw [pdbOmapFrom, addOmapForAllSections_eq, List.nil_append] at he
    obtain ⟨s, _hs, p, hp, h1, h2⟩ := mem_emitSections.mp he
    exact ⟨p, (List.mem_filter.mp hp).1, h2, h1⟩

/-- Witness for C4 (amended): the sole `omap_to` entry of a concrete run
maps the block's NEW address 100 to its ORIGINAL address 200. -/
theorem pdbOmap_direction_characterization_witness :
    ∃ p ∈ ([Placement.mk 100 10 1] : AddressSpace),
      (OMAP.mk 100 200).rva = p.start ∧
        GetAddressOf [Placement.mk 200 10 1] p.block =
          some (OMAP.mk 100 200).rvaTo :=
  (pdbOmap_direction_characterization
      [SectionHdr.mk 100 10 0, SectionHdr.mk 990 8 0] []
      [Placement.mk 100 10 1] [Placement.mk 200 10 1]).1
    (OMAP.mk 100 200) (by decide)

/-- Counterexample to C4 as stated: with a block placed at NEW address
100 and ORIGINAL address 200, the code's `omap_to` table is
`[(100, 200)]` — it maps the new address to the original address — while
the table the spec's words describe (an original→new mapping obtained by
querying the ORIGINAL space at the new sections' ranges) is empty; the
two differ, so `omap_to` is not an original→new mapping. -/
theorem pdbOmapTo_direction_counterexample :
    pdbOmapTo [SectionHdr.mk 100 10 0, SectionHdr.mk 990 8 0]
        [Placement.mk 100 10 1] [Placement.mk 200 10 1] =
      [OMAP.mk 100 200]
    ∧ pdbOmapToClaimed [SectionHdr.mk 100 10 0, SectionHdr.mk 990 8 0]
        [Placement.mk 100 10 1] [Placement.mk 200 10 1] = []
    ∧ pdbOmapTo [SectionHdr.mk 100 10 0, SectionHdr.mk 990 8 0]
          [Placement.mk 100 10 1] [Placement.mk 200 10 1] ≠
        pdbOmapToClaimed
          [SectionHdr.mk 100 10 0, SectionHdr.mk 990 8 0]
          [Placement.mk 100 10 1] [Placement.mk 200 10 1] := by
  refine ⟨by decide, by decide, by decide⟩

/-- C10: `Relinker::WritePDBFile` walks only the first
`NumberOfSections - 1` section headers of each image — `dropLast` of the
section list — in both directions, so a block whose placement in the new
space intersects no walked new section yields no `omap_to` entry at its
new address, and a block whose placement in the original space
intersects no walked original section yields no `omap_from` entry at its
original address; a block confined to the final (relocation) section of
both images therefore contributes to neither table. -/
theorem writePdb_excludes_last_section
    (bSections oSections : List SectionHdr)
    (bSpace oSpace : AddressSpace)
    (hbWF : WFSpace bSpace) (hoWF : WFSpace oSpace)
    (pNew pOrig : Placement)
    (hpNew : pNew ∈ bSpace) (hpOrig : pOrig ∈ oSpace)
    (hNoNew : ∀ s ∈ bSections.take (bSections.length - 1),
      intersectsRange pNew s.va s.size = false)
    (hNoOrig : ∀ s ∈ oSections.take (oSections.length - 1),
      intersectsRange pOrig s.va s.size = false) :
    pdbOmapTo bSections bSpace oSpace =
        AddOmapForAllSections bSections.dropLast bSpace oSpace []
    ∧ pdbOmapFrom oSections oSpace bSpace =
        AddOmapForAllSections oSections.dropLast oSpace bSpace []
    ∧ (∀ e ∈ pdbOmapTo bSections bSpace oSpace, e.rva ≠ pNew.start)
    ∧ (∀ e ∈ pdbOmapFrom oSections oSpace bSpace,
        e.rva ≠ pOrig.start) := by
  refine ⟨by rw [pdbOmapTo, List.dropLast_eq_take],
    by rw [pdbOmapFrom, List.dropLast_eq_take],
    fun e he hx => ?_, fun e he hx => ?_⟩
  · rw [pdbOmapTo, addOmapForAllSections_eq, List.nil_append] at he
    obtain ⟨s, hs, p, hp, _h1, h2⟩ := mem_emitSections.mp he
    obtain ⟨hpmem, hpint⟩ := List.mem_filter.mp hp
    have hpe : p = pNew :=
      wf_start_inj hbWF hpmem hpNew (by rw [← h2, ← hx])
    rw [hpe, hNoNew s hs] at hpint
    cases hpint
  · rw [pdbOmapFrom, addOmapForAllSections_eq, List.nil_append] at he
    obtain ⟨s, hs, p, hp, _h1, h2⟩ := mem_emitSections.mp he
    obtain ⟨hpmem, hpint⟩ := List.mem_filter.mp hp
    have hpe : p = pOrig :=
      wf_start_inj hoWF hpmem hpOrig (by rw [← h2, ← hx])
    rw [hpe, hNoOrig s hs] at hpint
    cases hpint

/-- Witness for C10: a block confined to the last section of both images
appears in neither translation table. -/
theorem writePdb_excludes_last_section_witness :
    (∀ e ∈ pdbOmapTo [SectionHdr.mk 0 10 0, SectionHdr.mk 100 10 0]
        [Placement.mk 100 10 7] [Placement.mk 200 10 7],
      e.rva ≠ (Placement.mk 100 10 7).start)
    ∧ (∀ e ∈ pdbOmapFrom [SectionHdr.mk 0 10 0, SectionHdr.mk 200 10 0]
        [Placement.mk 200 10 7] [Placement.mk 100 10 7],
      e.rva ≠ (Placement.mk 200 10 7).start) :=
  have h := writePdb_excludes_last_section
    [SectionHdr.mk 0 10 0, SectionHdr.mk 100 10 0]
    [SectionHdr.mk 0 10 0, SectionHdr.mk 200 10 0]
    [Placement.mk 100 10 7] [Placement.mk 200 10 7]
    ⟨by decide, List.Chain.nil⟩ ⟨by decide, List.Chain.nil⟩
    (Placement.mk 100 10 7) (Placement.mk 200 10 7)
    (by decide) (by decide) (by decide) (by decide)
  ⟨h.2.2.1, h.2.2.2⟩

/-- Witness for C1: a run whose header finalization fails and whose
code-ordering policy always fails still returns success when every
gating step succeeds. -/
theorem relink_success_gating_witness :
    Relink (RelinkSteps.mk true [] (fun _ => false) (fun _ => true)
      true true false true true) = true :=
  (relink_success_gating _).1.mpr ⟨rfl, by simp, rfl, rfl, rfl, rfl⟩

end Relinker
